import Mathlib

/-!
# Verification of the taxi-trip processing pipeline (src/app.py)

Shallow embedding of the data pipeline in `app.py`: schema derivation
(`load_data`, lines 36-42), record sanitization (lines 45-49), payment-name
decoding (lines 62-63), the filter engine (lines 75-79), the top-pickup-zones
aggregation (lines 103-105) and the day-of-week × hour pivot (lines 153-168).

Dataframes are modelled as `List Trip`; a column is a field of `Trip`.
Timestamps are seconds since the Unix epoch (a `Nat`); pandas'
`dt.hour`, `dt.dayofweek` (Monday = 0; 1970-01-01 was a Thursday, day 3) and
`dt.date` become the corresponding arithmetic on seconds.  Monetary amounts and
distances are rationals.  Float special values produced by pandas arithmetic
(`inf`, `-inf`, `NaN`) are modelled explicitly by `PdVal`, since the `tip_pct`
column depends on them; `ℚ` has no signed zero, so division uses the sign of
the literal zero divisor (the `+0` case of IEEE).
-/

namespace TaxiApp

/-- A pandas float cell: NaN, ±infinity, or a finite value (idealized as `ℚ`). -/
inductive PdVal where
  | nan : PdVal
  | inf : PdVal
  | ninf : PdVal
  | val : ℚ → PdVal
deriving DecidableEq, Repr

/-- Numpy/pandas elementwise division, with IEEE special-value behaviour:
`x / 0` is `±inf` for `x ≠ 0` and `NaN` for `x = 0`; any `NaN` operand
propagates. -/
def pdDiv : PdVal → PdVal → PdVal
  | .nan, _ => .nan
  | _, .nan => .nan
  | .inf, .inf => .nan
  | .inf, .ninf => .nan
  | .ninf, .inf => .nan
  | .ninf, .ninf => .nan
  | .inf, .val b => if 0 ≤ b then .inf else .ninf
  | .ninf, .val b => if 0 ≤ b then .ninf else .inf
  | .val _, .inf => .val 0
  | .val _, .ninf => .val 0
  | .val a, .val b =>
      if b = 0 then (if a = 0 then .nan else if 0 < a then .inf else .ninf)
      else .val (a / b)

/-- Multiplication of a pandas float by a finite scalar (used for `* 100`). -/
def pdMulC (x : PdVal) (c : ℚ) : PdVal :=
  match x with
  | .nan => .nan
  | .inf => if 0 < c then .inf else if c < 0 then .ninf else .nan
  | .ninf => if 0 < c then .ninf else if c < 0 then .inf else .nan
  | .val a => .val (a * c)

/-- `Series.fillna c`: replaces `NaN` by the finite value `c`; `±inf` is NOT
`NaN` and is left untouched. -/
def pdFillna (x : PdVal) (c : ℚ) : PdVal :=
  match x with
  | .nan => .val c
  | y => y

/-- A raw trip record, as read from the parquet file: the eight columns the
pipeline uses.  Timestamps are in seconds since the epoch. -/
structure RawTrip where
  tpep_pickup_datetime : Nat
  tpep_dropoff_datetime : Nat
  fare_amount : ℚ
  tip_amount : ℚ
  total_amount : ℚ
  trip_distance : ℚ
  PULocationID : Nat
  payment_type : Nat
deriving DecidableEq, Repr

/-- A trip record after `load_data`'s derivation step: the raw columns plus the
derived columns of lines 36-42.  `payment_name` is `none` until the decoding of
lines 62-63 writes the column (`none` = column absent). -/
structure Trip where
  tpep_pickup_datetime : Nat
  tpep_dropoff_datetime : Nat
  fare_amount : ℚ
  tip_amount : ℚ
  total_amount : ℚ
  trip_distance : ℚ
  PULocationID : Nat
  payment_type : Nat
  pickup_hour : Nat
  pickup_day : Nat
  pickup_date : Nat
  trip_duration_min : ℚ
  tip_pct : PdVal
  payment_name : Option String
deriving DecidableEq, Repr

/-- Lines 36-42 of `load_data`: derive `pickup_hour` (`dt.hour`), `pickup_day`
(`dt.dayofweek`, Monday = 0), `pickup_date` (`dt.date`, day number),
`trip_duration_min` (`total_seconds() / 60`, not rounded) and
`tip_pct` (`(tip_amount / fare_amount * 100).fillna(0)`). -/
def derive (r : RawTrip) : Trip where
  tpep_pickup_datetime := r.tpep_pickup_datetime
  tpep_dropoff_datetime := r.tpep_dropoff_datetime
  fare_amount := r.fare_amount
  tip_amount := r.tip_amount
  total_amount := r.total_amount
  trip_distance := r.trip_distance
  PULocationID := r.PULocationID
  payment_type := r.payment_type
  pickup_hour := r.tpep_pickup_datetime / 3600 % 24
  pickup_day := (r.tpep_pickup_datetime / 86400 + 3) % 7
  pickup_date := r.tpep_pickup_datetime / 86400
  trip_duration_min :=
    ((r.tpep_dropoff_datetime : ℚ) - (r.tpep_pickup_datetime : ℚ)) / 60
  tip_pct := pdFillna (pdMulC (pdDiv (.val r.tip_amount) (.val r.fare_amount)) 100) 0
  payment_name := none

/-- Lines 45-47 of `load_data`: the three successive boolean-mask filters that
drop implausible fares, distances and durations. -/
def sanitize (d : List Trip) : List Trip :=
  ((d.filter fun t => decide (0 < t.fare_amount) && decide (t.fare_amount < 200)).filter
      fun t => decide (0 < t.trip_distance) && decide (t.trip_distance < 50)).filter
    fun t => decide (1 < t.trip_duration_min) && decide (t.trip_duration_min < 180)

/-- `load_data` minus the I/O: derive the schema, sanitize, reset the index
(the index reset is the identity on a list model). -/
def loadClean (raws : List RawTrip) : List Trip :=
  sanitize (raws.map derive)

/-- Line 60: `payment_map = {1: "Credit Card", 2: "Cash", 3: "No Charge",
4: "Dispute"}`; `Series.map` yields `NaN` (here `none`) for unmapped codes. -/
def payment_map : Nat → Option String
  | 1 => some "Credit Card"
  | 2 => some "Cash"
  | 3 => some "No Charge"
  | 4 => some "Dispute"
  | _ => none

/-- Lines 62-63: `df["payment_name"] = df["payment_type"].map(payment_map)`
followed by `fillna("Unknown")` — an in-place column assignment on `df`. -/
def decodePayment (d : List Trip) : List Trip :=
  d.map fun t => { t with payment_name := some ((payment_map t.payment_type).getD "Unknown") }

/-- The payment name a record carries; after `decodePayment` the column is
always populated, so the `"Unknown"` default of `fillna` is never observed
through the `none` branch on pipeline states. -/
def paymentNameOf (t : Trip) : String :=
  t.payment_name.getD "Unknown"

/-- A filter selection: date range, hour range (both inclusive) and the
selected payment-type names (lines 57, 59, 65-69). -/
structure Selection where
  dateLo : Nat
  dateHi : Nat
  hourLo : Nat
  hourHi : Nat
  payments : List String
deriving DecidableEq, Repr

/-- The conjunction of predicates of lines 76-78. -/
def inSelection (sel : Selection) (t : Trip) : Bool :=
  decide (sel.dateLo ≤ t.pickup_date) && decide (t.pickup_date ≤ sel.dateHi) &&
  decide (sel.hourLo ≤ t.pickup_hour) && decide (t.pickup_hour ≤ sel.hourHi) &&
  sel.payments.contains (paymentNameOf t)

/-- Lines 75-79: `filtered = df[...]`, a boolean-mask selection producing a new
frame (the working subset) from the clean dataset. -/
def filterEngine (sel : Selection) (d : List Trip) : List Trip :=
  d.filter (inSelection sel)

/-- `Series.min()` over a non-empty column of day numbers (line 56). -/
def seriesMin (l : List Nat) : Nat :=
  match l with
  | [] => 0
  | x :: xs => xs.foldl min x

/-- `Series.max()` over a non-empty column of day numbers (line 56). -/
def seriesMax (l : List Nat) : Nat :=
  match l with
  | [] => 0
  | x :: xs => xs.foldl max x

/-- Line 67-68: `df["payment_name"].unique()`, the distinct decoded names in
first-appearance order. -/
def allNames (d : List Trip) : List String :=
  (d.map paymentNameOf).dedup

/-- The sidebar defaults: full date range (line 56-57), full hour range
(line 59) and every payment name present (line 68). -/
def fullSelection (d : List Trip) : Selection where
  dateLo := seriesMin (d.map (·.pickup_date))
  dateHi := seriesMax (d.map (·.pickup_date))
  hourLo := 0
  hourHi := 23
  payments := allNames d

/-! ## Sorting (model of `sort_values` and of the sorted keys of `groupby`) -/

/-- Insert into a list sorted by the boolean comparison `le`. -/
def insertSorted (le : α → α → Bool) (x : α) : List α → List α
  | [] => [x]
  | y :: ys => if le x y then x :: y :: ys else y :: insertSorted le x ys

/-- Sort by the boolean comparison `le` (insertion sort).  `sort_values`'s
default quicksort is not stable, so only the ordering matters, which any
correct comparison sort models. -/
def sortList (le : α → α → Bool) : List α → List α
  | [] => []
  | x :: xs => insertSorted le x (sortList le xs)

/-! ## Top pickup zones (lines 101-105) -/

/-- One row of the zone lookup table `data/raw/zonelookup.csv`. -/
structure ZoneRow where
  LocationID : Nat
  Zone : String
  Borough : String
deriving DecidableEq, Repr

/-- Line 103: `filtered.groupby("PULocationID").size()` — one `(id, count)`
row per distinct pickup location id, keys sorted ascending (groupby's
default `sort=True`). -/
def groupCountsPU (d : List Trip) : List (Nat × Nat) :=
  (sortList (fun a b => decide (a ≤ b)) (d.map (·.PULocationID)).dedup).map
    fun id => (id, (d.filter fun t => t.PULocationID == id).length)

/-- Lines 103-105: group, inner-merge with the zone lookup on
`PULocationID = LocationID` (unmatched rows dropped), sort by `trips`
descending, `head(10)`.  A result row is `(PULocationID, trips, Zone)`. -/
def top_zones (d : List Trip) (lookup : List ZoneRow) : List (Nat × Nat × String) :=
  ((sortList (fun a b => decide (b.2.1 ≤ a.2.1))
      ((groupCountsPU d).flatMap fun p =>
        (lookup.filter fun z => z.LocationID == p.1).map fun z => (p.1, p.2, z.Zone)))).take 10

/-! ## Trips by day of week and hour (lines 152-168) -/

/-- Line 154: `filtered["pickup_day_of_week"] = ... .dt.dayofweek` — the
column is recomputed from the pickup timestamp (the guard on line 153 is
always true: `load_data` created `pickup_day`, not `pickup_day_of_week`). -/
def pickup_day_of_week (t : Trip) : Nat :=
  (t.tpep_pickup_datetime / 86400 + 3) % 7

/-- Lines 162-164: the `weekday_order` name for a day number (`dayofweek`
is always in `0..6`, so the `map` never produces `NaN`). -/
def dayName (n : Nat) : String :=
  (["Monday", "Tuesday", "Wednesday", "Thursday", "Friday", "Saturday",
    "Sunday"].getD n "")

/-- Line 166: the fixed Monday-to-Sunday column order. -/
def days_order : List String :=
  ["Monday", "Tuesday", "Wednesday", "Thursday", "Friday", "Saturday", "Sunday"]

/-- The distinct day names appearing in the subset — the columns `pivot`
creates on line 167. -/
def presentDayNames (d : List Trip) : List String :=
  (d.map fun t => dayName (pickup_day_of_week t)).dedup

/-- The distinct pickup hours appearing in the subset, ascending — the index
`pivot` creates on line 167. -/
def presentHours (d : List Trip) : List Nat :=
  sortList (fun a b => decide (a ≤ b)) (d.map (·.pickup_hour)).dedup

/-- The `(day name, hour)` trip count; `pivot(...).fillna(0)` puts `0` in a
cell whose combination is absent, which is exactly a zero count. -/
def countDH (d : List Trip) (dn : String) (h : Nat) : Nat :=
  (d.filter fun t => (dayName (pickup_day_of_week t) == dn) && (t.pickup_hour == h)).length

/-- Lines 156-168: group by `(pickup_day_of_week, pickup_hour)`, pivot to an
hour × day-name table with `fillna(0)`, then select the columns
`days_order` — `bar_pivot[days_order]` raises a `KeyError` (here `none`)
when some weekday never occurs in the subset, because `pivot` only creates
columns for day names that are present. -/
def bar_pivot (d : List Trip) : Option (List (Nat × List Nat)) :=
  if days_order.all (fun n => (presentDayNames d).contains n) then
    some ((presentHours d).map fun h => (h, days_order.map fun dn => countDH d dn h))
  else none

/-! ## Concrete records for counterexamples and witnesses -/

/-- A plausible raw record: Thursday 1970-01-01 00:05, 10-minute trip. -/
def rawA : RawTrip where
  tpep_pickup_datetime := 300
  tpep_dropoff_datetime := 900
  fare_amount := 10
  tip_amount := 2
  total_amount := 12
  trip_distance := 2
  PULocationID := 132
  payment_type := 1

/-- A raw record with a zero fare and a positive tip. -/
def rawZeroFare : RawTrip where
  tpep_pickup_datetime := 300
  tpep_dropoff_datetime := 900
  fare_amount := 0
  tip_amount := 5
  total_amount := 5
  trip_distance := 2
  PULocationID := 132
  payment_type := 2

/-- One plausible raw record per day of the week (pickup on day `k` of the
epoch, all at hour 0). -/
def rawsWeek : List RawTrip :=
  (List.range 7).map fun k =>
    { tpep_pickup_datetime := 86400 * k
      tpep_dropoff_datetime := 86400 * k + 600
      fare_amount := 10
      tip_amount := 2
      total_amount := 12
      trip_distance := 2
      PULocationID := 132
      payment_type := 1 }

/-! ## Helper lemmas -/

theorem foldl_min_le_init (l : List Nat) (a : Nat) : l.foldl min a ≤ a := by
  induction l generalizing a with
  | nil => exact Nat.le_refl a
  | cons y ys ih => exact Nat.le_trans (ih (min a y)) (Nat.min_le_left a y)

theorem foldl_min_le_mem (l : List Nat) (a x : Nat) (hx : x ∈ l) : l.foldl min a ≤ x := by
  induction l generalizing a with
  | nil => cases hx
  | cons y ys ih =>
      rcases List.mem_cons.1 hx with rfl | hmem
      · exact Nat.le_trans (foldl_min_le_init ys (min a x)) (Nat.min_le_right a x)
      · exact ih (min a y) hmem

theorem seriesMin_le (l : List Nat) (x : Nat) (hx : x ∈ l) : seriesMin l ≤ x := by
  match l, hx with
  | y :: ys, hx =>
      rcases List.mem_cons.1 hx with rfl | hmem
      · exact foldl_min_le_init ys x
      · exact foldl_min_le_mem ys y x hmem

theorem le_foldl_max_init (l : List Nat) (a : Nat) : a ≤ l.foldl max a := by
  induction l generalizing a with
  | nil => exact Nat.le_refl a
  | cons y ys ih => exact Nat.le_trans (Nat.le_max_left a y) (ih (max a y))

theorem le_foldl_max_mem (l : List Nat) (a x : Nat) (hx : x ∈ l) : x ≤ l.foldl max a := by
  induction l generalizing a with
  | nil => cases hx
  | cons y ys ih =>
      rcases List.mem_cons.1 hx with rfl | hmem
      · exact Nat.le_trans (Nat.le_max_right a x) (le_foldl_max_init ys (max a x))
      · exact ih (max a y) hmem

theorem le_seriesMax (l : List Nat) (x : Nat) (hx : x ∈ l) : x ≤ seriesMax l := by
  match l, hx with
  | y :: ys, hx =>
      rcases List.mem_cons.1 hx with rfl | hmem
      · exact le_foldl_max_init ys x
      · exact le_foldl_max_mem ys y x hmem

theorem insertSorted_perm (le : α → α → Bool) (x : α) (l : List α) :
    List.Perm (insertSorted le x l) (x :: l) := by
  induction l with
  | nil => exact List.Perm.refl _
  | cons y ys ih =>
      unfold insertSorted
      by_cases h : le x y
      · simp [h]
      · simp only [h, if_neg, Bool.false_eq_true, not_false_eq_true, if_false]
        exact (ih.cons y).trans (List.Perm.swap x y ys)

theorem sortList_perm (le : α → α → Bool) (l : List α) : List.Perm (sortList le l) l := by
  induction l with
  | nil => exact List.Perm.refl _
  | cons y ys ih => exact (insertSorted_perm le y (sortList le ys)).trans (ih.cons y)

theorem mem_sortList {le : α → α → Bool} {l : List α} {x : α} :
    x ∈ sortList le l ↔ x ∈ l :=
  (sortList_perm le l).mem_iff

theorem pairwise_insertSorted (le : α → α → Bool)
    (htotal : ∀ a b, le a b = true ∨ le b a = true)
    (htrans : ∀ a b c, le a b = true → le b c = true → le a c = true)
    (x : α) (l : List α) (h : l.Pairwise fun a b => le a b = true) :
    (insertSorted le x l).Pairwise fun a b => le a b = true := by
  induction l with
  | nil => simp [insertSorted]
  | cons y ys ih =>
      rcases List.pairwise_cons.1 h with ⟨hy, hys⟩
      unfold insertSorted
      by_cases hxy : le x y
      · simp only [hxy, if_true]
        refine List.pairwise_cons.2 ⟨?_, h⟩
        intro z hz
        rcases List.mem_cons.1 hz with rfl | hmem
        · exact hxy
        · exact htrans x y z hxy (hy z hmem)
      · simp only [hxy, Bool.false_eq_true, if_false]
        refine List.pairwise_cons.2 ⟨?_, ih hys⟩
        intro z hz
        rcases List.mem_cons.1 ((insertSorted_perm le x ys).mem_iff.1 hz) with rfl | h2
        · rcases htotal z y with hc | hc
          · exact absurd hc hxy
          · exact hc
        · exact hy z h2

theorem pairwise_sortList (le : α → α → Bool)
    (htotal : ∀ a b, le a b = true ∨ le b a = true)
    (htrans : ∀ a b c, le a b = true → le b c = true → le a c = true)
    (l : List α) : (sortList le l).Pairwise fun a b => le a b = true := by
  induction l with
  | nil => simp [sortList]
  | cons y ys ih => exact pairwise_insertSorted le htotal htrans y (sortList le ys) ih

/-- Membership in the sanitized set yields the three bound invariants. -/
theorem mem_sanitize {d : List Trip} {t : Trip} (ht : t ∈ sanitize d) :
    t ∈ d ∧ 0 < t.fare_amount ∧ t.fare_amount < 200 ∧ 0 < t.trip_distance ∧
      t.trip_distance < 50 ∧ 1 < t.trip_duration_min ∧ t.trip_duration_min < 180 := by
  unfold sanitize at ht
  rcases List.mem_filter.1 ht with ⟨ht2, hdur⟩
  rcases List.mem_filter.1 ht2 with ⟨ht3, hdist⟩
  rcases List.mem_filter.1 ht3 with ⟨htd, hfare⟩
  simp only [Bool.and_eq_true, decide_eq_true_eq] at hdur hdist hfare
  exact ⟨htd, hfare.1, hfare.2, hdist.1, hdist.2, hdur.1, hdur.2⟩

/-- Membership in the decoded clean dataset comes from a clean record whose
non-`payment_name` fields are unchanged. -/
theorem mem_decodePayment {d : List Trip} {t : Trip} (ht : t ∈ decodePayment d) :
    ∃ t0 ∈ d, t = { t0 with payment_name := some ((payment_map t0.payment_type).getD "Unknown") } := by
  rcases List.mem_map.1 ht with ⟨t0, ht0, rfl⟩
  exact ⟨t0, ht0, rfl⟩

/-- Every record of the clean dataset has an hour in `0..23`: `dt.hour` is a
residue modulo 24. -/
theorem mem_loadClean_hour {raws : List RawTrip} {t : Trip} (ht : t ∈ loadClean raws) :
    t.pickup_hour < 24 := by
  have hmem : t ∈ raws.map derive := (mem_sanitize ht).1
  rcases List.mem_map.1 hmem with ⟨r, _, rfl⟩
  exact Nat.mod_lt _ (by norm_num)

/-! ## Claims -/

/-- C1, counterexample: the record with `fare_amount = 0` and `tip_amount = 5`
derives `tip_pct = +inf`, not `0` — pandas `fillna(0)` replaces `NaN` only,
and `5 / 0` is `inf`, not `NaN`. -/
theorem tip_pct_zero_fare_counterexample :
    (derive rawZeroFare).tip_pct = PdVal.inf ∧ (derive rawZeroFare).tip_pct ≠ PdVal.val 0 := by
  constructor <;> decide

/-- C1 (amended): the derived tip percentage is `tip / fare * 100` whenever
`fare_amount ≠ 0`; when `fare_amount = 0` it is `0` only in the `0 / 0` case
(`NaN`, filled by `fillna(0)`), and `±inf` when the tip is nonzero. -/
theorem tip_pct_cases (r : RawTrip) :
    (derive r).tip_pct =
      if r.fare_amount = 0 then
        (if r.tip_amount = 0 then PdVal.val 0
         else if 0 < r.tip_amount then PdVal.inf else PdVal.ninf)
      else PdVal.val (r.tip_amount / r.fare_amount * 100) := by
  show pdFillna (pdMulC (pdDiv (.val r.tip_amount) (.val r.fare_amount)) 100) 0 = _
  by_cases hf : r.fare_amount = 0
  · by_cases ht : r.tip_amount = 0
    · simp [pdDiv, pdMulC, pdFillna, hf, ht]
    · by_cases htp : 0 < r.tip_amount
      · simp [pdDiv, pdMulC, pdFillna, hf, ht, htp]
      · norm_num [pdDiv, pdMulC, pdFillna, hf, ht, htp]
  · simp [pdDiv, pdMulC, pdFillna, hf]

/-- C3: every record of the clean dataset — and of any working subset obtained
from it by decoding and filtering — satisfies the three sanitization bounds. -/
theorem clean_dataset_bounds (raws : List RawTrip) (sel : Selection) (t : Trip)
    (ht : t ∈ loadClean raws ∨ t ∈ filterEngine sel (decodePayment (loadClean raws))) :
    0 < t.fare_amount ∧ t.fare_amount < 200 ∧ 0 < t.trip_distance ∧
      t.trip_distance < 50 ∧ 1 < t.trip_duration_min ∧ t.trip_duration_min < 180 := by
  rcases ht with ht | ht
  · exact (mem_sanitize ht).2
  · have hmem : t ∈ decodePayment (loadClean raws) :=
      List.mem_of_mem_filter ht
    rcases mem_decodePayment hmem with ⟨t0, ht0, rfl⟩
    exact (mem_sanitize ht0).2

/-- C3, witness: the bounds hold for the one record surviving from `[rawA]`. -/
theorem clean_dataset_bounds_witness :
    0 < (derive rawA).fare_amount ∧ (derive rawA).fare_amount < 200 ∧
      0 < (derive rawA).trip_distance ∧ (derive rawA).trip_distance < 50 ∧
      1 < (derive rawA).trip_duration_min ∧ (derive rawA).trip_duration_min < 180 :=
  clean_dataset_bounds [rawA] ⟨0, 0, 0, 0, []⟩ (derive rawA)
    (Or.inl (by norm_num [loadClean, sanitize, derive, rawA, List.filter]))

/-- C7: sanitization is idempotent — a dataset already inside the three bounds
is returned unchanged. -/
theorem sanitize_idempotent (d : List Trip)
    (h : ∀ t ∈ d, 0 < t.fare_amount ∧ t.fare_amount < 200 ∧ 0 < t.trip_distance ∧
      t.trip_distance < 50 ∧ 1 < t.trip_duration_min ∧ t.trip_duration_min < 180) :
    sanitize d = d := by
  unfold sanitize
  have h1 : (d.filter fun t => decide (0 < t.fare_amount) && decide (t.fare_amount < 200)) = d := by
    refine List.filter_eq_self.2 fun t ht => ?_
    simp only [Bool.and_eq_true, decide_eq_true_eq]
    exact ⟨(h t ht).1, (h t ht).2.1⟩
  rw [h1]
  have h2 : (d.filter fun t => decide (0 < t.trip_distance) && decide (t.trip_distance < 50)) = d := by
    refine List.filter_eq_self.2 fun t ht => ?_
    simp only [Bool.and_eq_true, decide_eq_true_eq]
    exact ⟨(h t ht).2.2.1, (h t ht).2.2.2.1⟩
  rw [h2]
  refine List.filter_eq_self.2 fun t ht => ?_
  simp only [Bool.and_eq_true, decide_eq_true_eq]
  exact ⟨(h t ht).2.2.2.2.1, (h t ht).2.2.2.2.2⟩

/-- C7, witness: re-sanitizing the already-clean singleton `[derive rawA]`
returns it unchanged. -/
theorem sanitize_idempotent_witness : sanitize [derive rawA] = [derive rawA] :=
  sanitize_idempotent [derive rawA] (by
    intro t ht
    rcases List.mem_singleton.1 ht with rfl
    norm_num [derive, rawA])

/-- C9: an empty payment-type selection yields the empty working subset,
whatever the dataset and the date and hour ranges. -/
theorem empty_payments_empty_subset (d : List Trip) (dlo dhi hlo hhi : Nat) :
    filterEngine ⟨dlo, dhi, hlo, hhi, []⟩ d = [] := by
  refine List.filter_eq_nil_iff.2 fun t _ => ?_
  simp [inSelection]

/-- C10: the working subset is an order-preserving subsequence of the dataset
the filter engine is applied to: a boolean mask keeps rows in order and never
duplicates one. -/
theorem working_subset_sublist (sel : Selection) (d : List Trip) :
    (filterEngine sel d).Sublist d :=
  List.filter_sublist d

/-- C4: applying the filter engine with the full date range (minimum to
maximum pickup date), the full hour range `0..23` and all payment names
present returns the decoded clean dataset unchanged — the same records in
the same order. -/
theorem full_selection_identity (raws : List RawTrip) :
    filterEngine (fullSelection (decodePayment (loadClean raws)))
      (decodePayment (loadClean raws)) = decodePayment (loadClean raws) := by
  refine List.filter_eq_self.2 fun t ht => ?_
  have hhour : t.pickup_hour < 24 := by
    rcases mem_decodePayment ht with ⟨t0, ht0, rfl⟩
    show t0.pickup_hour < 24
    exact mem_loadClean_hour ht0
  have hdate : t.pickup_date ∈ (decodePayment (loadClean raws)).map (·.pickup_date) :=
    List.mem_map_of_mem _ ht
  have hname : paymentNameOf t ∈ allNames (decodePayment (loadClean raws)) :=
    List.mem_dedup.2 (List.mem_map_of_mem _ ht)
  simp only [inSelection, fullSelection, Bool.and_eq_true, decide_eq_true_eq]
  exact ⟨⟨⟨⟨seriesMin_le _ _ hdate, le_seriesMax _ _ hdate⟩, Nat.zero_le _⟩,
    Nat.lt_succ_iff.1 hhour⟩, List.elem_iff.2 hname⟩

/-- C5, counterexample: the payment-name decoding of lines 62-63 does modify
the clean dataset — after it, the dataset is no longer the value `load_data`
returned (a `payment_name` column has been written into it). -/
theorem decode_mutates_counterexample :
    decodePayment (loadClean [rawA]) ≠ loadClean [rawA] := by
  have hL : loadClean [rawA] = [derive rawA] := by
    norm_num [loadClean, sanitize, derive, rawA, List.filter]
  rw [hL]
  intro h
  have h2 := congrArg (fun l => (l.headD (derive rawA)).payment_name) h
  simp [decodePayment, derive, rawA, payment_map] at h2

/-- C5 (amended): payment-name decoding writes exactly the `payment_name`
column of the clean dataset in place: every other field of every record, the
record count and the record order are unchanged. -/
theorem decode_changes_only_payment_name (d : List Trip) :
    (decodePayment d).map (fun t => { t with payment_name := none }) =
      d.map (fun t => { t with payment_name := none }) ∧
    (decodePayment d).length = d.length := by
  refine ⟨?_, by simp [decodePayment]⟩
  simp only [decodePayment, List.map_map]
  rfl

/-- C6: the top-pickup-zones table has at most 10 rows, is sorted by trip
count descending, and every row's location id comes from a matching entry of
the zone lookup (the merge is an inner join). -/
theorem top_zones_spec (d : List Trip) (lookup : List ZoneRow) :
    (top_zones d lookup).length ≤ 10 ∧
    (top_zones d lookup).Pairwise (fun a b => b.2.1 ≤ a.2.1) ∧
    ∀ row ∈ top_zones d lookup, ∃ z ∈ lookup, z.LocationID = row.1 ∧ z.Zone = row.2.2 := by
  refine ⟨List.length_take_le _ _, ?_, ?_⟩
  · have hp := pairwise_sortList (fun (a b : Nat × Nat × String) => decide (b.2.1 ≤ a.2.1))
      (fun a b => by
        rcases Nat.le_total b.2.1 a.2.1 with h | h
        · exact Or.inl (decide_eq_true h)
        · exact Or.inr (decide_eq_true h))
      (fun a b c hab hbc =>
        decide_eq_true (Nat.le_trans (of_decide_eq_true hbc) (of_decide_eq_true hab)))
      ((groupCountsPU d).flatMap fun p =>
        (lookup.filter fun z => z.LocationID == p.1).map fun z => (p.1, p.2, z.Zone))
    exact (List.Pairwise.sublist (List.take_sublist 10 _) hp).imp fun h => of_decide_eq_true h
  · intro row hrow
    have h1 := (List.take_sublist 10 _).subset hrow
    have h2 := mem_sortList.1 h1
    rcases List.mem_flatMap.1 h2 with ⟨p, _, hrowp⟩
    rcases List.mem_map.1 hrowp with ⟨z, hz, rfl⟩
    rcases List.mem_filter.1 hz with ⟨hzl, hzid⟩
    exact ⟨z, hzl, eq_of_beq hzid, rfl⟩

/-- C6, witness: the guarantees instantiated on the concrete one-record
dataset and one-row lookup table. -/
theorem top_zones_spec_witness :
    (top_zones (decodePayment (loadClean [rawA])) [⟨132, "JFK Airport", "Queens"⟩]).length ≤ 10 ∧
    (top_zones (decodePayment (loadClean [rawA]))
      [⟨132, "JFK Airport", "Queens"⟩]).Pairwise (fun a b => b.2.1 ≤ a.2.1) ∧
    ∀ row ∈ top_zones (decodePayment (loadClean [rawA])) [⟨132, "JFK Airport", "Queens"⟩],
      ∃ z ∈ [(⟨132, "JFK Airport", "Queens"⟩ : ZoneRow)],
        z.LocationID = row.1 ∧ z.Zone = row.2.2 :=
  top_zones_spec (decodePayment (loadClean [rawA])) [⟨132, "JFK Airport", "Queens"⟩]

/-- C2, counterexample: on a one-record working subset (a Thursday trip) the
day-hour pivot does not produce a 24 × 7 matrix — `bar_pivot[days_order]`
fails (`KeyError`, modelled as `none`) because `pivot` created a column only
for Thursday. -/
theorem bar_pivot_counterexample :
    bar_pivot (decodePayment (loadClean [rawA])) = none := by
  have hL : loadClean [rawA] = [derive rawA] := by
    norm_num [loadClean, sanitize, derive, rawA, List.filter]
  rw [hL]
  decide

/-- C2 (amended): when every one of the seven weekday names occurs in the
subset, the pivot succeeds and yields one row per distinct pickup hour
present (at most 24 — exactly 24 only when all hours occur), each row holding
the seven Monday-to-Sunday counts, with `0` for any `(day, hour)` combination
absent from the subset; when some weekday is absent the column selection
fails instead of producing a zero-filled column. -/
theorem bar_pivot_dense (d : List Trip)
    (hdays : ∀ n ∈ days_order, n ∈ presentDayNames d)
    (hhours : ∀ t ∈ d, t.pickup_hour < 24) :
    ∃ m, bar_pivot d = some m ∧
      m.map Prod.fst = presentHours d ∧
      m.length ≤ 24 ∧
      (∀ row ∈ m, row.2 = days_order.map fun dn => countDH d dn row.1) ∧
      ∀ hr dn, (∀ t ∈ d, ¬(dayName (pickup_day_of_week t) = dn ∧ t.pickup_hour = hr)) →
        countDH d dn hr = 0 := by
  refine ⟨(presentHours d).map fun h => (h, days_order.map fun dn => countDH d dn h),
    ?_, ?_, ?_, ?_, ?_⟩
  · unfold bar_pivot
    rw [if_pos]
    exact List.all_eq_true.2 fun n hn => List.elem_iff.2 (hdays n hn)
  · rw [List.map_map,
      show (Prod.fst ∘ fun h => (h, days_order.map fun dn => countDH d dn h)) = id from rfl,
      List.map_id]
  · rw [List.length_map]
    have hnd : (presentHours d).Nodup := by
      unfold presentHours
      exact (sortList_perm _ _).nodup_iff.2 (List.nodup_dedup _)
    have hsub : presentHours d ⊆ List.range 24 := by
      intro x hx
      have hx2 := List.mem_dedup.1 (mem_sortList.1 hx)
      rcases List.mem_map.1 hx2 with ⟨t, htd, rfl⟩
      exact List.mem_range.2 (hhours t htd)
    calc (presentHours d).length ≤ (List.range 24).length := (hnd.subperm hsub).length_le
      _ = 24 := List.length_range 24
  · intro row hrow
    rcases List.mem_map.1 hrow with ⟨h, _, rfl⟩
    rfl
  · intro hr dn hnone
    have hfil : (d.filter fun t =>
        (dayName (pickup_day_of_week t) == dn) && (t.pickup_hour == hr)) = [] := by
      refine List.filter_eq_nil_iff.2 fun t htd => ?_
      simp only [Bool.and_eq_true, beq_iff_eq]
      exact hnone t htd
    simp [countDH, hfil]

/-- C2, witness: on a subset containing one trip on each day of the week (all
at hour 0) the pivot succeeds, with a single row for hour 0. -/
theorem bar_pivot_dense_witness :
    ∃ m, bar_pivot (rawsWeek.map derive) = some m ∧
      m.map Prod.fst = presentHours (rawsWeek.map derive) ∧
      m.length ≤ 24 ∧
      (∀ row ∈ m, row.2 = days_order.map fun dn => countDH (rawsWeek.map derive) dn row.1) ∧
      ∀ hr dn, (∀ t ∈ rawsWeek.map derive,
          ¬(dayName (pickup_day_of_week t) = dn ∧ t.pickup_hour = hr)) →
        countDH (rawsWeek.map derive) dn hr = 0 :=
  bar_pivot_dense (rawsWeek.map derive) (by decide) (by decide)

end TaxiApp
